import Mathlib

/-!
Verification of the client-side network synchronization core of the
GameServerHW-rs repository, embedded shallowly from
`client/src/framework/scene/game_scene.rs`.

The embedding covers:
* the Protocol Codec: whitespace tokenization of a command line and the
  Rust-style numeric field parsers used by `str::parse::<u32/i32/usize>`;
* the Entity Reconciler: `GameScene::process_message` acting on the
  `objects_from_server` map, the `player_id` field, and the Model Registry
  attach/remove calls it issues (`Object::set_model` / `Model::remove_instance`);
* the Transport: `GameScene::pull_messages`, modelled over an explicit trace
  of I/O outcomes (read results and reconnect results).

A panic in the Rust source (an `unwrap()` failure or an out-of-bounds index)
is modelled as the result `none : Option GameState`; all non-panicking paths
return `some` of the successor state.

Positions are stored in the source as `f32` values obtained from `i32` fields
by `as f32`; the protocol carries small grid coordinates, so positions are
modelled as the pre-cast integers (`Int`).
-/

/-! ## Protocol Codec -/

/-- Accumulating whitespace splitter over a character list: the worker behind
`tokenize`. The accumulator holds the current in-progress token reversed. -/
def wsSplit : List Char → List Char → List String
  | [], acc => if acc.isEmpty then [] else [String.mk acc.reverse]
  | c :: rest, acc =>
    if c.isWhitespace then
      if acc.isEmpty then wsSplit rest [] else String.mk acc.reverse :: wsSplit rest []
    else
      wsSplit rest (c :: acc)

/-- Embeds the source's `msg.trim().split_whitespace().map(|s| s.trim())`
pipeline: split the line on whitespace, dropping empty tokens (which also
covers the outer `trim`, and makes the inner `trim` a no-op). -/
def tokenize (s : String) : List String :=
  wsSplit s.data []

/-- Decimal digit accumulation for the numeric field parsers; fails on the
first non-digit character, as Rust's integer `from_str` does. -/
def digitsVal : List Char → Nat → Option Nat
  | [], acc => some acc
  | c :: rest, acc =>
    if c.isDigit then digitsVal rest (acc * 10 + (c.toNat - 48)) else none

/-- A nonempty all-digit character list parsed as a natural number; `none` on
an empty list or any non-digit, as Rust's integer `from_str` requires at
least one digit. -/
def parseNatCore : List Char → Option Nat
  | [] => none
  | c :: rest => digitsVal (c :: rest) 0

/-- A leading ASCII plus sign, accepted by Rust's unsigned `from_str`. -/
def dropPlus : List Char → List Char
  | '+' :: rest => rest
  | cs => cs

/-- Embeds `str::parse::<u32>()`: optional plus sign, one or more decimal
digits, value within `u32` range. -/
def parseU32 (s : String) : Option Nat :=
  match parseNatCore (dropPlus s.data) with
  | some v => if v < 4294967296 then some v else none
  | none => none

/-- Embeds `str::parse::<usize>()` on the 64-bit target: optional plus sign,
decimal digits, value within `u64` range. -/
def parseUsize (s : String) : Option Nat :=
  match parseNatCore (dropPlus s.data) with
  | some v => if v < 18446744073709551616 then some v else none
  | none => none

/-- Embeds `str::parse::<i32>()`: optional sign, decimal digits, value within
`i32` range. -/
def parseI32 (s : String) : Option Int :=
  match s.data with
  | '-' :: rest =>
    match parseNatCore rest with
    | some v => if v ≤ 2147483648 then some (-(v : Int)) else none
    | none => none
  | cs =>
    match parseNatCore (dropPlus cs) with
    | some v => if v < 2147483648 then some (v : Int) else none
    | none => none

/-! ## Data model -/

/-- One networked game object, as the reconciler observes it.
Modelled from the spec: `Object` itself (its `transform.position: Vector3<f32>`
and its `model: Option<*mut Model>` back-reference set by `Object::set_model`)
is declared outside the provided sources; per spec section 3 an Entity carries
a grid position (y fixed, unused by the protocol) and an optional non-owning
model reference, unset at creation. The model reference is represented by the
index of the model in the scene's `models` vector. -/
structure Object where
  posX : Int
  posY : Int
  posZ : Int
  model : Option Nat
deriving DecidableEq, Repr

/-- Modelled from the spec: `Object::new()` produces an entity with no model
bound yet and a default (origin) position. -/
def Object.new : Object :=
  { posX := 0, posY := 0, posZ := 0, model := none }

/-- Embeds `Object::set_model(&mut self.models[i])`: record the non-owning
reference to model slot `i`. The accompanying Model Registry attach call is
recorded by the caller (`applyTriple`). -/
def setModel (o : Object) (i : Nat) : Object :=
  { o with model := some i }

/-- Embeds the two position writes `object.transform.position.x = x as f32;`
and `object.transform.position.z = z as f32;`. -/
def setPosXZ (o : Object) (x z : Int) : Object :=
  { o with posX := x, posZ := z }

/-- The `objects_from_server` map, `HashMap<u32, Object>`, modelled as an
association list with (by construction) distinct keys. -/
abbrev ObjMap := List (Nat × Object)

/-- First-match lookup, embedding `HashMap::get` / `get_mut`. -/
def alGet : ObjMap → Nat → Option Object
  | [], _ => none
  | (k, v) :: rest, id => if k = id then some v else alGet rest id

/-- In-place value replacement at the first entry with the given key,
embedding mutation through `get_mut`. -/
def alSet : ObjMap → Nat → Object → ObjMap
  | [], _, _ => []
  | (k, v) :: rest, id, o => if k = id then (k, o) :: rest else (k, v) :: alSet rest id o

/-- A key is present in the map. -/
def isKey (l : ObjMap) (k : Nat) : Bool :=
  (alGet l k).isSome

/-- The reconciler-relevant state of a `GameScene`: the server-entity map,
the local player id, and the chronological logs of Model Registry attach
(`Object::set_model`) and remove (`Model::remove_instance`) calls issued by
`process_message`, each recording the affected entity id. -/
structure GameState where
  objectsFromServer : ObjMap
  playerId : Nat
  attachEvents : List Nat
  removeEvents : List Nat
deriving DecidableEq, Repr

/-- The state built by `GameScene::new()`: empty `objects_from_server` and
`player_id = 0` (unassigned), with no Model Registry calls issued yet. -/
def initialState : GameState :=
  { objectsFromServer := [], playerId := 0, attachEvents := [], removeEvents := [] }

/-! ## Entity Reconciler -/

/-- Embeds one iteration of the `update` loop body for a decoded triple
`(id, x, z)`: if `id` is present, overwrite its position in place; otherwise
insert `Object::new()`, bind the model chosen by the player-id rule
(`models[2]` for the player's own id, `models[3]` otherwise, recording the
attach call), and set the position. -/
def applyTriple (st : GameState) (id : Nat) (x z : Int) : GameState :=
  match alGet st.objectsFromServer id with
  | some o =>
    { st with objectsFromServer := alSet st.objectsFromServer id (setPosXZ o x z) }
  | none =>
    let m := if id = st.playerId then 2 else 3
    { st with
        objectsFromServer := st.objectsFromServer ++ [(id, setPosXZ (setModel Object.new m) x z)],
        attachEvents := st.attachEvents ++ [id] }

/-- Embeds the `for i in 0..num_objects` loop of the `update` branch: `toks`
is the token slice after the sentinel (so `toks[0] = "update"`), the triple
for iteration `i` sits at indices `2 + i * 3 .. 2 + i * 3 + 2`. A missing
index or a failed numeric parse is the source's index/`unwrap` panic,
modelled as `none`. On success, the final state and the accumulated
`valid_ids` are returned. -/
def updateLoop (toks : List String) : Nat → Nat → GameState → List Nat →
    Option (GameState × List Nat)
  | _, 0, st, valid => some (st, valid)
  | i, r + 1, st, valid =>
    match toks.get? (2 + i * 3), toks.get? (2 + i * 3 + 1), toks.get? (2 + i * 3 + 2) with
    | some ids, some xs, some zs =>
      match parseU32 ids, parseI32 xs, parseI32 zs with
      | some id, some x, some z =>
        updateLoop toks (i + 1) r (applyTriple st id x z) (valid ++ [id])
      | _, _, _ => none
    | _, _, _ => none

/-- The entity ids dropped by the reconciliation pass: keys of entries not
listed in `valid_ids` whose object holds a model reference — exactly the ids
for which `retain` issues a `Model::remove_instance` call. -/
def evictedIds (valid : List Nat) (l : ObjMap) : List Nat :=
  (l.filter (fun p => !(valid.contains p.1) && p.2.model.isSome)).map (fun p => p.1)

/-- Embeds the `objects_from_server.retain(...)` pass: keep exactly the
entries whose key is in `valid_ids`; for each dropped entry holding a model
reference, record the `remove_instance` call. -/
def retainValid (valid : List Nat) (st : GameState) : GameState :=
  { st with
      objectsFromServer := st.objectsFromServer.filter (fun p => valid.contains p.1),
      removeEvents := st.removeEvents ++ evictedIds valid st.objectsFromServer }

/-- Embeds `GameScene::process_message` after tokenization: the sentinel
check, the slice past the sentinel (whose `msg[0]` read panics on a bare
sentinel), and the `init` / `update` / unknown-verb dispatch. `none` models
a panic (failed `unwrap` or out-of-bounds index). -/
def processTokens (st : GameState) (toks : List String) : Option GameState :=
  match toks with
  | [] => some st
  | sentinel :: rest =>
    if sentinel = "GAMESERVER" then
      match rest with
      | [] => none
      | verb :: args =>
        if verb = "init" then
          match args with
          | [] => some st
          | a :: _ =>
            match parseU32 a with
            | some pid => some { st with playerId := pid }
            | none => none
        else if verb = "update" then
          match args with
          | [] => some st
          | cstr :: _ =>
            match parseUsize cstr with
            | none => none
            | some n =>
              match updateLoop rest 0 n st [] with
              | none => none
              | some (st', valid) => some (retainValid valid st')
        else some st
    else some st

/-- Embeds `GameScene::process_message` on a raw command line. -/
def processMessage (st : GameState) (msg : String) : Option GameState :=
  processTokens st (tokenize msg)

/-- A sequence of command lines processed in order; `none` as soon as one of
them panics. -/
def runMessages (st : GameState) : List String → Option GameState
  | [] => some st
  | m :: ms =>
    match processMessage st m with
    | some st' => runMessages st' ms
    | none => none

/-! ## Transport -/

/-- One outcome of the I/O environment during `pull_messages`: a successful
read of a decoded chunk, an orderly close (`Ok(0)`), a would-block signal, or
a hard read error followed by the result of the reconnect attempt to the
stored address. -/
inductive ReadEvent where
  | ok (msg : String)
  | closed
  | wouldBlock
  | errConnOk
  | errConnFail
deriving DecidableEq, Repr

/-- An event representing a failed `stream.read`. -/
def isReadError : ReadEvent → Bool
  | .errConnOk => true
  | .errConnFail => true
  | _ => false

/-- Embeds `GameScene::pull_messages` over the trace of I/O outcomes:
data is returned as-is; close, would-block and a failed reconnect yield
`None`; a successful reconnect replaces the socket and recursively retries
the read on the remaining trace. An exhausted trace is read as "no further
data" (`none`). -/
def pullMessages : List ReadEvent → Option String
  | [] => none
  | .ok s :: _ => some s
  | .closed :: _ => none
  | .wouldBlock :: _ => none
  | .errConnFail :: _ => none
  | .errConnOk :: rest => pullMessages rest

/-- The number of `TcpStream::connect` attempts one `pull_messages` call
performs on the given trace. -/
def reconnectAttempts : List ReadEvent → Nat
  | .errConnOk :: rest => reconnectAttempts rest + 1
  | .errConnFail :: _ => 1
  | _ => 0

/-! ## Derived views of the update loop

The loop interleaves parsing of the next triple with the state mutation for
the previous ones; since parsing does not read the state, the loop factors
into a pure parsing pass (`parseTriples`) followed by a pure application pass
(`applyTriples`). The factoring is proved in `updateLoop_eq`.
-/

/-- The triples `(id, x, z)` a well-formed `update` loop decodes from the
token slice, with the same indexing as `updateLoop`; `none` exactly when the
loop would panic. -/
def parseTriples (toks : List String) : Nat → Nat → Option (List (Nat × Int × Int))
  | _, 0 => some []
  | i, r + 1 =>
    match toks.get? (2 + i * 3), toks.get? (2 + i * 3 + 1), toks.get? (2 + i * 3 + 2) with
    | some ids, some xs, some zs =>
      match parseU32 ids, parseI32 xs, parseI32 zs with
      | some id, some x, some z =>
        match parseTriples toks (i + 1) r with
        | some ts => some ((id, x, z) :: ts)
        | none => none
      | _, _, _ => none
    | _, _, _ => none

/-- Application of a list of decoded triples in listed order. -/
def applyTriples (st : GameState) : List (Nat × Int × Int) → GameState
  | [] => st
  | (id, x, z) :: ts => applyTriples (applyTriple st id x z) ts

/-- The full effect of a well-formed `update` command with decoded triples
`ts`: apply the triples in order, then evict every id not listed. -/
def applyUpdate (st : GameState) (ts : List (Nat × Int × Int)) : GameState :=
  retainValid (ts.map (fun t => t.1)) (applyTriples st ts)

/-- The position carried by the last triple of the snapshot naming `k`,
if any: the value that "wins" under in-place overwrite semantics. -/
def lastPos (ts : List (Nat × Int × Int)) (k : Nat) : Option (Int × Int) :=
  match ts with
  | [] => none
  | (id, x, z) :: rest =>
    match lastPos rest k with
    | some p => some p
    | none => if id = k then some (x, z) else none

/-- The ids of the snapshot for which the loop takes the creation branch
(absent at the moment their first triple is processed), in creation order:
exactly the ids whose entities are freshly created and attached. -/
def newIds (l : ObjMap) : List Nat → List Nat
  | [] => []
  | id :: rest =>
    if isKey l id then newIds l rest
    else id :: newIds (l ++ [(id, Object.new)]) rest

/-! ## Association-list lemmas -/

theorem alGet_alSet (l : ObjMap) (id : Nat) (o : Object) (k : Nat) :
    alGet (alSet l id o) k =
      if k = id then (alGet l id).map (fun _ => o) else alGet l k := by
  induction l with
  | nil => by_cases hk : k = id <;> simp [alSet, alGet, hk]
  | cons p rest ih =>
    obtain ⟨pk, pv⟩ := p
    by_cases h1 : pk = id
    · subst h1
      by_cases h2 : pk = k
      · subst h2
        simp [alSet, alGet]
      · have h3 : ¬ k = pk := fun h => h2 h.symm
        simp [alSet, alGet, h2, h3]
    · by_cases h2 : pk = k
      · subst h2
        have h3 : ¬ pk = id := h1
        simp [alSet, alGet, h1, h3]
      · simp [alSet, alGet, h1, h2, ih]

theorem alGet_append_single (l : ObjMap) (id : Nat) (o : Object) (k : Nat) :
    alGet (l ++ [(id, o)]) k =
      match alGet l k with
      | some v => some v
      | none => if k = id then some o else none := by
  induction l with
  | nil =>
    by_cases hk : id = k
    · subst hk
      simp [alGet]
    · have hk' : ¬ k = id := fun h => hk h.symm
      simp [alGet, hk, hk']
  | cons p rest ih =>
    obtain ⟨pk, pv⟩ := p
    by_cases hk : pk = k <;> simp [alGet, hk, ih]

theorem isKey_alSet (l : ObjMap) (id : Nat) (o : Object) (k : Nat) :
    isKey (alSet l id o) k = isKey l k := by
  by_cases hk : k = id
  · subst hk
    simp only [isKey, alGet_alSet, if_pos rfl]
    cases alGet l k <;> simp
  · simp [isKey, alGet_alSet, hk]

theorem alSet_length (l : ObjMap) (id : Nat) (o : Object) :
    (alSet l id o).length = l.length := by
  induction l with
  | nil => rfl
  | cons p rest ih =>
    obtain ⟨pk, pv⟩ := p
    by_cases hk : pk = id <;> simp [alSet, hk, ih]

theorem alGet_mem (l : ObjMap) (k : Nat) (o : Object) (h : alGet l k = some o) :
    (k, o) ∈ l := by
  induction l with
  | nil => simp [alGet] at h
  | cons p rest ih =>
    obtain ⟨pk, pv⟩ := p
    by_cases hk : pk = k
    · subst hk
      simp [alGet] at h
      simp [h]
    · simp [alGet, hk] at h
      exact List.mem_cons_of_mem _ (ih h)

theorem mem_alSet (l : ObjMap) (id : Nat) (o : Object) (p : Nat × Object)
    (h : p ∈ alSet l id o) : p ∈ l ∨ p = (id, o) := by
  induction l with
  | nil => simp [alSet] at h
  | cons q rest ih =>
    obtain ⟨qk, qv⟩ := q
    by_cases hk : qk = id
    · subst hk
      simp [alSet] at h
      rcases h with h | h
      · subst h; right; rfl
      · left; exact List.mem_cons_of_mem _ h
    · simp [alSet, hk] at h
      rcases h with h | h
      · subst h; left; exact List.mem_cons_self _ _
      · rcases ih h with h' | h'
        · left; exact List.mem_cons_of_mem _ h'
        · right; exact h'

theorem mem_key_isKey (l : ObjMap) (p : Nat × Object) (h : p ∈ l) :
    isKey l p.1 = true := by
  induction l with
  | nil => simp at h
  | cons q rest ih =>
    obtain ⟨qk, qv⟩ := q
    rcases List.mem_cons.mp h with h' | h'
    · subst h'
      simp [isKey, alGet]
    · by_cases hk : qk = p.1
      · simp [isKey, alGet, hk]
      · simpa [isKey, alGet, hk] using ih h'

theorem alGet_filter_contains (valid : List Nat) (l : ObjMap) (k : Nat) :
    alGet (l.filter (fun p => valid.contains p.1)) k =
      if valid.contains k then alGet l k else none := by
  induction l with
  | nil => simp [alGet]
  | cons p rest ih =>
    obtain ⟨pk, pv⟩ := p
    by_cases hmem : pk ∈ valid
    · by_cases hk : pk = k
      · subst hk
        simp [List.filter_cons, hmem, alGet, ih]
      · simp at ih
        simpa [List.filter_cons, hmem, alGet, hk] using ih
    · by_cases hk : pk = k
      · subst hk
        simp [hmem] at ih
        simpa [List.filter_cons, hmem, alGet] using ih
      · simp at ih
        simpa [List.filter_cons, hmem, alGet, hk] using ih

/-! ## The update loop factored into parse and apply passes -/

theorem updateLoop_eq (toks : List String) (rem : Nat) :
    ∀ i st valid,
      updateLoop toks i rem st valid =
        match parseTriples toks i rem with
        | some ts => some (applyTriples st ts, valid ++ ts.map (fun t => t.1))
        | none => none := by
  induction rem with
  | zero => intro i st valid; simp [updateLoop, parseTriples, applyTriples]
  | succ r ih =>
    intro i st valid
    simp only [updateLoop, parseTriples]
    split
    · split
      · rw [ih (i + 1)]
        cases parseTriples toks (i + 1) r with
        | none => rfl
        | some ts => simp [applyTriples]
      · rfl
    · rfl

/-! ## State-component lemmas for the apply pass -/

theorem applyTriple_playerId (st : GameState) (id : Nat) (x z : Int) :
    (applyTriple st id x z).playerId = st.playerId := by
  unfold applyTriple
  cases alGet st.objectsFromServer id <;> rfl

theorem applyTriple_removeEvents (st : GameState) (id : Nat) (x z : Int) :
    (applyTriple st id x z).removeEvents = st.removeEvents := by
  unfold applyTriple
  cases alGet st.objectsFromServer id <;> rfl

theorem applyTriples_playerId (ts : List (Nat × Int × Int)) :
    ∀ st, (applyTriples st ts).playerId = st.playerId := by
  induction ts with
  | nil => intro st; rfl
  | cons t rest ih =>
    intro st
    obtain ⟨id, x, z⟩ := t
    rw [applyTriples, ih, applyTriple_playerId]

theorem applyTriples_removeEvents (ts : List (Nat × Int × Int)) :
    ∀ st, (applyTriples st ts).removeEvents = st.removeEvents := by
  induction ts with
  | nil => intro st; rfl
  | cons t rest ih =>
    intro st
    obtain ⟨id, x, z⟩ := t
    rw [applyTriples, ih, applyTriple_removeEvents]

theorem setPosXZ_setPosXZ (o : Object) (a b x z : Int) :
    setPosXZ (setPosXZ o a b) x z = setPosXZ o x z := by
  cases o; rfl

/-- Where each key ends up after the apply pass: untouched if the snapshot
never names it; overwritten in place with the last listed position if it was
present; created with the player-id model rule and the last listed position
if it was absent. -/
theorem alGet_applyTriples (ts : List (Nat × Int × Int)) :
    ∀ st k,
      alGet (applyTriples st ts).objectsFromServer k =
        match lastPos ts k with
        | none => alGet st.objectsFromServer k
        | some (x, z) =>
          match alGet st.objectsFromServer k with
          | some o => some (setPosXZ o x z)
          | none =>
            some (setPosXZ (setModel Object.new (if k = st.playerId then 2 else 3)) x z) := by
  induction ts with
  | nil =>
    intro st k
    simp [applyTriples, lastPos]
  | cons t rest ih =>
    intro st k
    obtain ⟨id, x, z⟩ := t
    rw [applyTriples, ih (applyTriple st id x z) k]
    rw [applyTriple_playerId]
    by_cases hid : id = k
    · subst hid
      cases hbase : alGet st.objectsFromServer id with
      | some o =>
        have hget : alGet (applyTriple st id x z).objectsFromServer id = some (setPosXZ o x z) := by
          unfold applyTriple
          rw [hbase]
          simp [alGet_alSet, hbase]
        cases hrest : lastPos rest id with
        | none =>
          simp [lastPos, hrest, hbase, hget]
        | some p =>
          obtain ⟨px, pz⟩ := p
          simp [lastPos, hrest, hbase, hget, setPosXZ_setPosXZ]
      | none =>
        have hget : alGet (applyTriple st id x z).objectsFromServer id =
            some (setPosXZ (setModel Object.new (if id = st.playerId then 2 else 3)) x z) := by
          unfold applyTriple
          rw [hbase]
          simp [alGet_append_single, hbase]
        cases hrest : lastPos rest id with
        | none =>
          simp [lastPos, hrest, hbase, hget]
        | some p =>
          obtain ⟨px, pz⟩ := p
          simp [lastPos, hrest, hbase, hget, setPosXZ_setPosXZ]
    · have hki : ¬ k = id := fun h => hid h.symm
      have hget : alGet (applyTriple st id x z).objectsFromServer k = alGet st.objectsFromServer k := by
        unfold applyTriple
        cases hbase : alGet st.objectsFromServer id with
        | some o => simp [alGet_alSet, hki, hbase]
        | none =>
          simp only [alGet_append_single, hki]
          cases alGet st.objectsFromServer k <;> simp [hki]
      cases hrest : lastPos rest k with
      | none =>
        simp [lastPos, hrest, hget, hid]
      | some p =>
        obtain ⟨px, pz⟩ := p
        simp [lastPos, hrest, hget]

theorem lastPos_isSome_iff (ts : List (Nat × Int × Int)) (k : Nat) :
    (lastPos ts k).isSome = true ↔ k ∈ ts.map (fun t => t.1) := by
  induction ts with
  | nil => simp [lastPos]
  | cons t rest ih =>
    obtain ⟨id, x, z⟩ := t
    cases hrest : lastPos rest k with
    | some p =>
      simp only [lastPos, hrest]
      simp only [hrest] at ih
      simp [← ih]
    | none =>
      simp only [lastPos, hrest]
      simp only [hrest] at ih
      by_cases hid : id = k
      · subst hid
        simp
      · have hki : ¬ k = id := fun h => hid h.symm
        simp [hid, hki, ← ih]

theorem isKey_applyTriples (ts : List (Nat × Int × Int)) (st : GameState) (k : Nat) :
    isKey (applyTriples st ts).objectsFromServer k = true ↔
      (isKey st.objectsFromServer k = true ∨ k ∈ ts.map (fun t => t.1)) := by
  rw [isKey, alGet_applyTriples]
  cases hlast : lastPos ts k with
  | none =>
    have hmem : ¬ k ∈ ts.map (fun t => t.1) := by
      rw [← lastPos_isSome_iff, hlast]
      simp
    simp [isKey, hmem]
  | some p =>
    obtain ⟨x, z⟩ := p
    have hmem : k ∈ ts.map (fun t => t.1) := by
      rw [← lastPos_isSome_iff, hlast]
      rfl
    cases alGet st.objectsFromServer k <;> simp [hmem]

/-- `newIds` only looks at which keys are present, not at the stored
objects. -/
theorem newIds_congr (ids : List Nat) :
    ∀ a b : ObjMap, (∀ k, isKey a k = isKey b k) → newIds a ids = newIds b ids := by
  induction ids with
  | nil => intro a b _; rfl
  | cons id rest ih =>
    intro a b hab
    by_cases hk : isKey a id = true
    · rw [newIds, if_pos hk, newIds, if_pos (hab id ▸ hk), ih a b hab]
    · rw [newIds, if_neg hk, newIds, if_neg (fun h => hk ((hab id).symm ▸ h))]
      have h2 : ∀ k, isKey (a ++ [(id, Object.new)]) k = isKey (b ++ [(id, Object.new)]) k := by
        intro k
        simp only [isKey, alGet_append_single]
        have := hab k
        simp only [isKey] at this
        cases ha : alGet a k with
        | some v =>
          have hb : (alGet b k).isSome = true := by rw [← this, ha]; rfl
          cases hb' : alGet b k with
          | some w => rfl
          | none => rw [hb'] at hb; simp at hb
        | none =>
          have hb : (alGet b k).isSome = false := by rw [← this, ha]; rfl
          cases hb' : alGet b k with
          | some w => rw [hb'] at hb; simp at hb
          | none => rfl
      rw [ih _ _ h2]

theorem isKey_applyTriple (st : GameState) (id : Nat) (x z : Int) (k : Nat) :
    isKey (applyTriple st id x z).objectsFromServer k =
      (isKey st.objectsFromServer k || k = id) := by
  unfold applyTriple
  cases hbase : alGet st.objectsFromServer id with
  | some o =>
    simp only []
    by_cases hk : k = id
    · subst hk
      simp [isKey, alGet_alSet, hbase]
    · simp [isKey, alGet_alSet, hk]
  | none =>
    simp only [isKey, alGet_append_single]
    cases ha : alGet st.objectsFromServer k with
    | some v => simp
    | none =>
      by_cases hk : k = id <;> simp [hk]

/-- The attach calls of an apply pass: exactly one per id whose entity is
created, in listed first-occurrence order. -/
theorem attachEvents_applyTriples (ts : List (Nat × Int × Int)) :
    ∀ st, (applyTriples st ts).attachEvents =
      st.attachEvents ++ newIds st.objectsFromServer (ts.map (fun t => t.1)) := by
  induction ts with
  | nil => intro st; simp [applyTriples, newIds]
  | cons t rest ih =>
    intro st
    obtain ⟨id, x, z⟩ := t
    rw [applyTriples, ih]
    cases hbase : alGet st.objectsFromServer id with
    | some o =>
      have hkey : isKey st.objectsFromServer id = true := by simp [isKey, hbase]
      have hcongr : ∀ k, isKey (applyTriple st id x z).objectsFromServer k =
          isKey st.objectsFromServer k := by
        intro k
        rw [isKey_applyTriple]
        by_cases hk : k = id
        · subst hk
          simp [hkey]
        · simp [hk]
      have happ : (applyTriple st id x z).attachEvents = st.attachEvents := by
        unfold applyTriple
        rw [hbase]
      rw [happ, List.map_cons, newIds, if_pos hkey,
        newIds_congr _ _ _ hcongr]
    | none =>
      have hkey : ¬ isKey st.objectsFromServer id = true := by simp [isKey, hbase]
      have hcongr : ∀ k, isKey (applyTriple st id x z).objectsFromServer k =
          isKey (st.objectsFromServer ++ [(id, Object.new)]) k := by
        intro k
        rw [isKey_applyTriple]
        simp only [isKey, alGet_append_single]
        cases ha : alGet st.objectsFromServer k with
        | some v => simp [isKey, ha]
        | none =>
          by_cases hk : k = id <;> simp [isKey, ha, hk]
      have happ : (applyTriple st id x z).attachEvents = st.attachEvents ++ [id] := by
        unfold applyTriple
        rw [hbase]
      rw [happ, List.map_cons, newIds, if_neg hkey, newIds_congr _ _ _ hcongr]
      simp

/-! ## Model-instance accounting -/

/-- Every entity in the map holds a model reference: true for every map the
reconciler builds, since creation binds a model immediately. -/
def AllModeled (l : ObjMap) : Prop :=
  ∀ p ∈ l, p.2.model.isSome = true

/-- The accounting invariant: each recorded attach call is matched either by
a live entity or by a recorded remove call. -/
def Accounted (st : GameState) : Prop :=
  st.attachEvents.length = st.removeEvents.length + st.objectsFromServer.length
    ∧ AllModeled st.objectsFromServer

theorem length_filter_partition (p : Nat × Object → Bool) (l : ObjMap) :
    (l.filter p).length + (l.filter (fun a => !(p a))).length = l.length := by
  induction l with
  | nil => rfl
  | cons q rest ih =>
    by_cases hq : p q = true
    · simp [List.filter_cons, hq, ← ih]
      omega
    · simp [List.filter_cons, hq]
      simp at hq
      simp [hq, ← ih]
      omega

theorem applyTriple_accounted (st : GameState) (id : Nat) (x z : Int)
    (h : Accounted st) : Accounted (applyTriple st id x z) := by
  obtain ⟨hlen, hmod⟩ := h
  unfold applyTriple
  cases hbase : alGet st.objectsFromServer id with
  | some o =>
    constructor
    · simp [alSet_length, hlen]
    · intro p hp
      rcases mem_alSet _ _ _ _ hp with h' | h'
      · exact hmod p h'
      · subst h'
        have : o.model.isSome = true := hmod _ (alGet_mem _ _ _ hbase)
        simpa [setPosXZ] using this
  | none =>
    constructor
    · simp [hlen]
      omega
    · intro p hp
      rcases List.mem_append.mp hp with h' | h'
      · exact hmod p h'
      · simp at h'
        subst h'
        simp [setPosXZ, setModel]

theorem applyTriples_accounted (ts : List (Nat × Int × Int)) :
    ∀ st, Accounted st → Accounted (applyTriples st ts) := by
  induction ts with
  | nil => intro st h; exact h
  | cons t rest ih =>
    intro st h
    obtain ⟨id, x, z⟩ := t
    exact ih _ (applyTriple_accounted st id x z h)

theorem retainValid_accounted (valid : List Nat) (st : GameState)
    (h : Accounted st) : Accounted (retainValid valid st) := by
  obtain ⟨hlen, hmod⟩ := h
  constructor
  · have hev : evictedIds valid st.objectsFromServer
        = (st.objectsFromServer.filter (fun p => !(valid.contains p.1))).map (fun p => p.1) := by
      unfold evictedIds
      congr 1
      apply List.filter_congr
      intro p hp
      simp [hmod p hp]
    have hpart := length_filter_partition (fun p => valid.contains p.1) st.objectsFromServer
    simp only [retainValid, hev, List.length_append, List.length_map]
    omega
  · intro p hp
    exact hmod p (List.mem_of_mem_filter hp)

/-! ## Branch equations for the dispatcher -/

theorem processTokens_nil (st : GameState) : processTokens st [] = some st := rfl

theorem processTokens_not_sentinel (st : GameState) (sentinel : String) (rest : List String)
    (h : ¬ sentinel = "GAMESERVER") : processTokens st (sentinel :: rest) = some st := by
  simp [processTokens, h]

theorem processTokens_bare_sentinel (st : GameState) :
    processTokens st ["GAMESERVER"] = none := rfl

theorem processTokens_init_noarg (st : GameState) :
    processTokens st ["GAMESERVER", "init"] = some st := rfl

theorem processTokens_init (st : GameState) (a : String) (more : List String) :
    processTokens st ("GAMESERVER" :: "init" :: a :: more) =
      match parseU32 a with
      | some pid => some { st with playerId := pid }
      | none => none := rfl

theorem processTokens_update_noarg (st : GameState) :
    processTokens st ["GAMESERVER", "update"] = some st := rfl

theorem processTokens_update (st : GameState) (cstr : String) (more : List String) :
    processTokens st ("GAMESERVER" :: "update" :: cstr :: more) =
      match parseUsize cstr with
      | none => none
      | some n =>
        match updateLoop ("update" :: cstr :: more) 0 n st [] with
        | none => none
        | some (st2, valid) => some (retainValid valid st2) := rfl

theorem processTokens_unknown_verb (st : GameState) (verb : String) (args : List String)
    (h1 : ¬ verb = "init") (h2 : ¬ verb = "update") :
    processTokens st ("GAMESERVER" :: verb :: args) = some st := by
  simp [processTokens, h1, h2]

theorem processTokens_init_some (st : GameState) (a : String) (more : List String)
    (pid : Nat) (hp : parseU32 a = some pid) :
    processTokens st ("GAMESERVER" :: "init" :: a :: more) =
      some { st with playerId := pid } := by
  rw [processTokens_init, hp]

theorem processTokens_init_bad (st : GameState) (a : String) (more : List String)
    (hp : parseU32 a = none) :
    processTokens st ("GAMESERVER" :: "init" :: a :: more) = none := by
  rw [processTokens_init, hp]

theorem processTokens_update_badcount (st : GameState) (cstr : String) (more : List String)
    (hn : parseUsize cstr = none) :
    processTokens st ("GAMESERVER" :: "update" :: cstr :: more) = none := by
  rw [processTokens_update, hn]

/-- A well-formed `update` command processes successfully to the
parse-then-apply composition. -/
theorem processTokens_update_eq (st : GameState) (cstr : String) (more : List String)
    (n : Nat) (ts : List (Nat × Int × Int))
    (hn : parseUsize cstr = some n)
    (hts : parseTriples ("update" :: cstr :: more) 0 n = some ts) :
    processTokens st ("GAMESERVER" :: "update" :: cstr :: more) =
      some (applyUpdate st ts) := by
  rw [processTokens_update, hn]
  show (match updateLoop ("update" :: cstr :: more) 0 n st [] with
        | none => none
        | some (st2, valid) => some (retainValid valid st2)) = some (applyUpdate st ts)
  rw [updateLoop_eq, hts]
  rfl

/-- An `update` command whose triple region is short or unparsable panics. -/
theorem processTokens_update_panic (st : GameState) (cstr : String) (more : List String)
    (n : Nat)
    (hn : parseUsize cstr = some n)
    (hts : parseTriples ("update" :: cstr :: more) 0 n = none) :
    processTokens st ("GAMESERVER" :: "update" :: cstr :: more) = none := by
  rw [processTokens_update, hn]
  show (match updateLoop ("update" :: cstr :: more) 0 n st [] with
        | none => none
        | some (st2, valid) => some (retainValid valid st2)) = none
  rw [updateLoop_eq, hts]

/-- Every message the reconciler survives preserves the accounting
invariant. -/
theorem processTokens_accounted (st : GameState) (toks : List String) (st' : GameState)
    (h : processTokens st toks = some st') (hacc : Accounted st) : Accounted st' := by
  cases toks with
  | nil =>
    rw [processTokens_nil] at h
    cases h
    exact hacc
  | cons sentinel rest =>
    by_cases hs : sentinel = "GAMESERVER"
    · subst hs
      cases rest with
      | nil => rw [processTokens_bare_sentinel] at h; cases h
      | cons verb args =>
        by_cases hv : verb = "init"
        · subst hv
          cases args with
          | nil =>
            rw [processTokens_init_noarg] at h
            cases h
            exact hacc
          | cons a more =>
            cases hpid : parseU32 a with
            | some pid =>
              rw [processTokens_init_some st a more pid hpid] at h
              cases h
              exact ⟨hacc.1, hacc.2⟩
            | none =>
              rw [processTokens_init_bad st a more hpid] at h
              cases h
        · by_cases hu : verb = "update"
          · subst hu
            cases args with
            | nil =>
              rw [processTokens_update_noarg] at h
              cases h
              exact hacc
            | cons cstr more =>
              cases hn : parseUsize cstr with
              | none =>
                rw [processTokens_update_badcount st cstr more hn] at h
                cases h
              | some n =>
                cases hts : parseTriples ("update" :: cstr :: more) 0 n with
                | none =>
                  rw [processTokens_update_panic st cstr more n hn hts] at h
                  cases h
                | some ts =>
                  rw [processTokens_update_eq st cstr more n ts hn hts] at h
                  cases h
                  exact retainValid_accounted _ _ (applyTriples_accounted ts st hacc)
          · rw [processTokens_unknown_verb st verb args hv hu] at h
            cases h
            exact hacc
    · rw [processTokens_not_sentinel st sentinel rest hs] at h
      cases h
      exact hacc

theorem processMessage_accounted (st : GameState) (msg : String) (st' : GameState)
    (h : processMessage st msg = some st') (hacc : Accounted st) : Accounted st' :=
  processTokens_accounted st (tokenize msg) st' h hacc

theorem runMessages_accounted (msgs : List String) :
    ∀ st st', runMessages st msgs = some st' → Accounted st → Accounted st' := by
  induction msgs with
  | nil =>
    intro st st' h hacc
    simp [runMessages] at h
    exact h ▸ hacc
  | cons m ms ih =>
    intro st st' h hacc
    unfold runMessages at h
    cases hm : processMessage st m with
    | none => rw [hm] at h; simp at h
    | some st1 =>
      rw [hm] at h
      exact ih st1 st' h (processMessage_accounted st m st1 hm hacc)

theorem initialState_accounted : Accounted initialState := by
  constructor
  · rfl
  · intro p hp
    simp [initialState] at hp

/-! ## Creation and eviction bookkeeping -/

theorem not_mem_newIds_of_isKey (ids : List Nat) :
    ∀ l k, isKey l k = true → k ∉ newIds l ids := by
  induction ids with
  | nil => intro l k _; simp [newIds]
  | cons id rest ih =>
    intro l k hk
    by_cases hid : isKey l id = true
    · rw [newIds, if_pos hid]
      exact ih l k hk
    · rw [newIds, if_neg hid]
      intro hmem
      rcases List.mem_cons.mp hmem with h | h
      · subst h
        exact hid hk
      · have hk' : isKey (l ++ [(id, Object.new)]) k = true := by
          simp only [isKey, alGet_append_single]
          simp only [isKey] at hk
          cases ha : alGet l k with
          | some v => rfl
          | none => rw [ha] at hk; simp at hk
        exact ih _ k hk' h

theorem mem_newIds_of_absent (ids : List Nat) :
    ∀ l k, k ∈ ids → isKey l k = false → k ∈ newIds l ids := by
  induction ids with
  | nil => intro l k hmem _; simp at hmem
  | cons id rest ih =>
    intro l k hmem hk
    by_cases hid : id = k
    · subst hid
      rw [newIds, if_neg (by simp [hk])]
      exact List.mem_cons_self _ _
    · have hmem' : k ∈ rest := by
        rcases List.mem_cons.mp hmem with h | h
        · exact absurd h.symm hid
        · exact h
      by_cases hkey : isKey l id = true
      · rw [newIds, if_pos hkey]
        exact ih l k hmem' hk
      · rw [newIds, if_neg hkey]
        have hk' : isKey (l ++ [(id, Object.new)]) k = false := by
          simp only [isKey, alGet_append_single]
          simp only [isKey] at hk
          cases ha : alGet l k with
          | some v => rw [ha] at hk; simp at hk
          | none =>
            have hki : ¬ k = id := fun h => hid h.symm
            simp [hki]
        exact List.mem_cons_of_mem _ (ih _ k hmem' hk')

theorem count_newIds_le_one (ids : List Nat) :
    ∀ l k, (newIds l ids).count k ≤ 1 := by
  induction ids with
  | nil => intro l k; simp [newIds]
  | cons id rest ih =>
    intro l k
    by_cases hid : isKey l id = true
    · rw [newIds, if_pos hid]
      exact ih l k
    · rw [newIds, if_neg hid]
      by_cases hk : id = k
      · subst hk
        have hkey : isKey (l ++ [(id, Object.new)]) id = true := by
          simp only [isKey, alGet_append_single]
          simp only [isKey] at hid
          cases ha : alGet l id with
          | some v => rfl
          | none => simp
        have hnot : id ∉ newIds (l ++ [(id, Object.new)]) rest :=
          not_mem_newIds_of_isKey rest _ id hkey
        rw [List.count_cons_self, List.count_eq_zero.mpr hnot]
      · rw [List.count_cons_of_ne (fun h => hk h.symm)]
        exact ih _ k

theorem newIds_eq_nil_of_all_keys (ids : List Nat) :
    ∀ l, (∀ id ∈ ids, isKey l id = true) → newIds l ids = [] := by
  induction ids with
  | nil => intro l _; rfl
  | cons id rest ih =>
    intro l h
    rw [newIds, if_pos (h id (List.mem_cons_self _ _))]
    exact ih l (fun i hi => h i (List.mem_cons_of_mem _ hi))

theorem not_mem_evictedIds (valid : List Nat) (l : ObjMap) (k : Nat)
    (h : k ∈ valid) : k ∉ evictedIds valid l := by
  unfold evictedIds
  intro hmem
  rcases List.mem_map.mp hmem with ⟨p, hp, hpk⟩
  have := List.of_mem_filter hp
  rw [hpk] at this
  simp [h] at this

/-! ## Component equations for the full update effect -/

theorem alGet_applyUpdate (st : GameState) (ts : List (Nat × Int × Int)) (k : Nat) :
    alGet (applyUpdate st ts).objectsFromServer k =
      if (ts.map (fun t => t.1)).contains k
      then alGet (applyTriples st ts).objectsFromServer k
      else none := by
  unfold applyUpdate retainValid
  simp only []
  rw [alGet_filter_contains]

theorem applyUpdate_playerId (st : GameState) (ts : List (Nat × Int × Int)) :
    (applyUpdate st ts).playerId = st.playerId := by
  unfold applyUpdate retainValid
  simp only []
  rw [applyTriples_playerId]

theorem applyUpdate_attachEvents (st : GameState) (ts : List (Nat × Int × Int)) :
    (applyUpdate st ts).attachEvents =
      st.attachEvents ++ newIds st.objectsFromServer (ts.map (fun t => t.1)) := by
  unfold applyUpdate retainValid
  simp only []
  rw [attachEvents_applyTriples]

theorem applyUpdate_removeEvents (st : GameState) (ts : List (Nat × Int × Int)) :
    (applyUpdate st ts).removeEvents =
      st.removeEvents ++
        evictedIds (ts.map (fun t => t.1)) (applyTriples st ts).objectsFromServer := by
  unfold applyUpdate retainValid
  simp only []
  rw [applyTriples_removeEvents]

theorem isKey_applyUpdate_mem (st : GameState) (ts : List (Nat × Int × Int)) (k : Nat)
    (h : isKey (applyUpdate st ts).objectsFromServer k = true) :
    k ∈ ts.map (fun t => t.1) := by
  rw [isKey, alGet_applyUpdate] at h
  by_cases hc : (ts.map (fun t => t.1)).contains k
  · simpa using hc
  · rw [if_neg hc] at h
    simp at h

theorem alGet_applyTriples_absent (ts : List (Nat × Int × Int)) (st : GameState)
    (k : Nat) (x z : Int)
    (hlp : lastPos ts k = some (x, z))
    (habsent : alGet st.objectsFromServer k = none) :
    alGet (applyTriples st ts).objectsFromServer k =
      some (setPosXZ (setModel Object.new (if k = st.playerId then 2 else 3)) x z) := by
  rw [alGet_applyTriples ts st k, hlp]
  simp [habsent]

theorem alGet_applyTriples_present (ts : List (Nat × Int × Int)) (st : GameState)
    (k : Nat) (x z : Int) (o : Object)
    (hlp : lastPos ts k = some (x, z))
    (hpresent : alGet st.objectsFromServer k = some o) :
    alGet (applyTriples st ts).objectsFromServer k = some (setPosXZ o x z) := by
  rw [alGet_applyTriples ts st k, hlp]
  simp [hpresent]

theorem alGet_applyTriples_unlisted (ts : List (Nat × Int × Int)) (st : GameState)
    (k : Nat) (hlp : lastPos ts k = none) :
    alGet (applyTriples st ts).objectsFromServer k = alGet st.objectsFromServer k := by
  rw [alGet_applyTriples ts st k, hlp]

/-- A listed id has a last position in the snapshot. -/
theorem lastPos_of_mem (ts : List (Nat × Int × Int)) (k : Nat)
    (hmem : k ∈ ts.map (fun t => t.1)) : ∃ x z, lastPos ts k = some (x, z) := by
  cases hlp : lastPos ts k with
  | none =>
    exfalso
    have := (lastPos_isSome_iff ts k).mpr hmem
    rw [hlp] at this
    simp at this
  | some p =>
    obtain ⟨x, z⟩ := p
    exact ⟨x, z, rfl⟩

/-! ## Claims -/

/-- C1: for every well-formed `GAMESERVER update` command, after application
the key set of `objects_from_server` equals exactly the set of ids listed in
the command — every listed id is present and every unlisted id has been
removed. -/
theorem c1_keyset_matches_snapshot (st : GameState) (msg cstr : String)
    (fields : List String) (n : Nat) (ts : List (Nat × Int × Int))
    (htok : tokenize msg = "GAMESERVER" :: "update" :: cstr :: fields)
    (hn : parseUsize cstr = some n)
    (hts : parseTriples ("update" :: cstr :: fields) 0 n = some ts) :
    processMessage st msg = some (applyUpdate st ts) ∧
      ∀ k, isKey (applyUpdate st ts).objectsFromServer k = true ↔
        k ∈ ts.map (fun t => t.1) := by
  constructor
  · rw [processMessage, htok]
    exact processTokens_update_eq st cstr fields n ts hn hts
  · intro k
    rw [isKey, alGet_applyUpdate]
    by_cases hc : k ∈ ts.map (fun t => t.1)
    · have hcontains : (ts.map (fun t => t.1)).contains k = true := by simpa using hc
      have h2 : isKey (applyTriples st ts).objectsFromServer k = true :=
        (isKey_applyTriples ts st k).mpr (Or.inr hc)
      rw [isKey] at h2
      rw [if_pos hcontains]
      simp [h2, hc]
    · have hcontains : ¬ (ts.map (fun t => t.1)).contains k = true := by simpa using hc
      rw [if_neg hcontains]
      simp [hc]

/-- C1 witness: the snapshot `GAMESERVER update 2 7 1 2 9 3 4` applied to the
fresh state yields exactly the keys 7 and 9. -/
theorem c1_keyset_matches_snapshot_witness :
    processMessage initialState "GAMESERVER update 2 7 1 2 9 3 4" =
      some (applyUpdate initialState [(7, 1, 2), (9, 3, 4)]) ∧
    (isKey (applyUpdate initialState [(7, 1, 2), (9, 3, 4)]).objectsFromServer 9 = true ↔
      9 ∈ ([(7, 1, 2), (9, 3, 4)] : List (Nat × Int × Int)).map (fun t => t.1)) := by
  have h := c1_keyset_matches_snapshot initialState "GAMESERVER update 2 7 1 2 9 3 4"
    "2" ["7", "1", "2", "9", "3", "4"] 2 [(7, 1, 2), (9, 3, 4)]
    (by decide) (by decide) (by decide)
  exact ⟨h.1, h.2 9⟩

/-- C2: the claim states that a count/field mismatch or an unparsable numeric
field leaves the Entity Set unchanged without panicking; the code instead
panics (out-of-bounds slice index or failed `unwrap`) on
`GAMESERVER update 3 1 2`, modelled as `none`. -/
theorem c2_malformed_update_panics :
    processMessage initialState "GAMESERVER update 3 1 2" = none := by decide

/-- C3: along every panic-free message sequence from the fresh state, the
number of recorded Model Registry attach calls equals the number of recorded
remove calls plus the number of live entities in `objects_from_server`. -/
theorem c3_model_instance_accounting (msgs : List String) (st' : GameState)
    (h : runMessages initialState msgs = some st') :
    st'.attachEvents.length =
      st'.removeEvents.length + st'.objectsFromServer.length :=
  (runMessages_accounted msgs initialState st' h initialState_accounted).1

/-- C3 witness: the documented scenario — a two-entity snapshot followed by a
one-entity snapshot — ends with two attaches, one remove, one live entity. -/
theorem c3_model_instance_accounting_witness :
    runMessages initialState
        ["GAMESERVER update 2 7 1 2 9 3 4", "GAMESERVER update 1 9 5 6"] =
      some { objectsFromServer := [(9, { posX := 5, posY := 0, posZ := 6, model := some 3 })],
             playerId := 0, attachEvents := [7, 9], removeEvents := [7] } ∧
    ({ objectsFromServer := [(9, { posX := 5, posY := 0, posZ := 6, model := some 3 })],
       playerId := 0, attachEvents := [7, 9],
       removeEvents := [7] } : GameState).attachEvents.length =
      ({ objectsFromServer := [(9, { posX := 5, posY := 0, posZ := 6, model := some 3 })],
         playerId := 0, attachEvents := [7, 9],
         removeEvents := [7] } : GameState).removeEvents.length +
      ({ objectsFromServer := [(9, { posX := 5, posY := 0, posZ := 6, model := some 3 })],
         playerId := 0, attachEvents := [7, 9],
         removeEvents := [7] } : GameState).objectsFromServer.length :=
  ⟨by decide,
   c3_model_instance_accounting
     ["GAMESERVER update 2 7 1 2 9 3 4", "GAMESERVER update 1 9 5 6"]
     { objectsFromServer := [(9, { posX := 5, posY := 0, posZ := 6, model := some 3 })],
       playerId := 0, attachEvents := [7, 9], removeEvents := [7] }
     (by decide)⟩

/-- C4: each read that fails with an error other than would-block triggers
exactly one reconnect attempt to the stored address: a run of `k` failed
reads with successful reconnects makes `k` attempts and then simply retries
the read on the fresh socket, while a failed read whose reconnect also fails
adds its single attempt and makes the poll return `None`, with no error
propagated. -/
theorem c4_reconnect_policy :
    (∀ (k : Nat) (e : ReadEvent) (rest : List ReadEvent), isReadError e = false →
        pullMessages (List.replicate k ReadEvent.errConnOk ++ e :: rest) =
          pullMessages (e :: rest) ∧
        reconnectAttempts (List.replicate k ReadEvent.errConnOk ++ e :: rest) = k) ∧
    (∀ (k : Nat) (rest : List ReadEvent),
        pullMessages
            (List.replicate k ReadEvent.errConnOk ++ ReadEvent.errConnFail :: rest) = none ∧
        reconnectAttempts
            (List.replicate k ReadEvent.errConnOk ++ ReadEvent.errConnFail :: rest) = k + 1) := by
  constructor
  · intro k e rest he
    induction k with
    | zero =>
      refine ⟨rfl, ?_⟩
      cases e with
      | errConnOk => simp [isReadError] at he
      | errConnFail => simp [isReadError] at he
      | ok s => rfl
      | closed => rfl
      | wouldBlock => rfl
    | succ m ih =>
      obtain ⟨ih1, ih2⟩ := ih
      refine ⟨?_, ?_⟩
      · rw [List.replicate_succ, List.cons_append]
        rw [pullMessages, ih1]
      · rw [List.replicate_succ, List.cons_append]
        rw [reconnectAttempts, ih2]
  · intro k rest
    induction k with
    | zero => exact ⟨rfl, rfl⟩
    | succ m ih =>
      obtain ⟨ih1, ih2⟩ := ih
      refine ⟨?_, ?_⟩
      · rw [List.replicate_succ, List.cons_append]
        rw [pullMessages, ih1]
      · rw [List.replicate_succ, List.cons_append]
        rw [reconnectAttempts, ih2]

/-- C4 witness: one failed read with successful reconnect retries the read
(one attempt); a failed read whose reconnect fails yields `None` after the
second attempt of the run. -/
theorem c4_reconnect_policy_witness :
    isReadError (ReadEvent.ok "GAMESERVER init 7") = false ∧
    pullMessages [ReadEvent.errConnOk, ReadEvent.ok "GAMESERVER init 7"] =
      pullMessages [ReadEvent.ok "GAMESERVER init 7"] ∧
    reconnectAttempts [ReadEvent.errConnOk, ReadEvent.ok "GAMESERVER init 7"] = 1 ∧
    pullMessages [ReadEvent.errConnOk, ReadEvent.errConnFail] = none ∧
    reconnectAttempts [ReadEvent.errConnOk, ReadEvent.errConnFail] = 2 :=
  ⟨by decide,
   (c4_reconnect_policy.1 1 (ReadEvent.ok "GAMESERVER init 7") [] (by decide)).1,
   (c4_reconnect_policy.1 1 (ReadEvent.ok "GAMESERVER init 7") [] (by decide)).2,
   (c4_reconnect_policy.2 1 []).1,
   (c4_reconnect_policy.2 1 []).2⟩

/-- C9: the claim states that every malformed line — empty, missing sentinel,
unknown verb, bare sentinel, or `init` with a non-numeric field — is silently
dropped without a panic. The first three cases do behave that way, but a bare
`GAMESERVER` line and `GAMESERVER init abc` panic (index out of bounds and
failed `unwrap`), modelled as `none`. -/
theorem c9_malformed_line_handling :
    processMessage initialState "" = some initialState ∧
    processMessage initialState "hello world" = some initialState ∧
    processMessage initialState "GAMESERVER frobnicate 1 2" = some initialState ∧
    processMessage initialState "GAMESERVER" = none ∧
    processMessage initialState "GAMESERVER init abc" = none := by
  refine ⟨by decide, by decide, by decide, by decide, by decide⟩

/-- C6: every id of an `update` snapshot that is absent from the Entity Set
is created and bound by the fixed rule — the current player id gets the
highlighted variant `models[2]`, every other id the default variant
`models[3]` — and an instance registration (attach) is recorded for it. -/
theorem c6_creation_model_rule (st : GameState) (msg cstr : String)
    (fields : List String) (n : Nat) (ts : List (Nat × Int × Int)) (k : Nat)
    (htok : tokenize msg = "GAMESERVER" :: "update" :: cstr :: fields)
    (hn : parseUsize cstr = some n)
    (hts : parseTriples ("update" :: cstr :: fields) 0 n = some ts)
    (habsent : alGet st.objectsFromServer k = none)
    (hmem : k ∈ ts.map (fun t => t.1)) :
    processMessage st msg = some (applyUpdate st ts) ∧
    (∃ o, alGet (applyUpdate st ts).objectsFromServer k = some o ∧
        o.model = some (if k = st.playerId then 2 else 3)) ∧
    (applyUpdate st ts).attachEvents =
      st.attachEvents ++ newIds st.objectsFromServer (ts.map (fun t => t.1)) ∧
    k ∈ newIds st.objectsFromServer (ts.map (fun t => t.1)) := by
  refine ⟨?_, ?_, applyUpdate_attachEvents st ts,
    mem_newIds_of_absent _ _ k hmem (by simp [isKey, habsent])⟩
  · rw [processMessage, htok]
    exact processTokens_update_eq st cstr fields n ts hn hts
  · obtain ⟨x, z, hlp⟩ := lastPos_of_mem ts k hmem
    have hcontains : (ts.map (fun t => t.1)).contains k = true := by simpa using hmem
    rw [alGet_applyUpdate, if_pos hcontains,
      alGet_applyTriples_absent ts st k x z hlp habsent]
    exact ⟨_, rfl, rfl⟩

/-- C6 witness: in the fresh state (player id 0), id 9 of
`GAMESERVER update 2 7 1 2 9 3 4` is created and an attach is recorded. -/
theorem c6_creation_model_rule_witness :
    processMessage initialState "GAMESERVER update 2 7 1 2 9 3 4" =
      some (applyUpdate initialState [(7, 1, 2), (9, 3, 4)]) ∧
    (∃ o, alGet (applyUpdate initialState [(7, 1, 2), (9, 3, 4)]).objectsFromServer 9 =
        some o ∧ o.model = some (if 9 = initialState.playerId then 2 else 3)) ∧
    9 ∈ newIds initialState.objectsFromServer
        (([(7, 1, 2), (9, 3, 4)] : List (Nat × Int × Int)).map (fun t => t.1)) :=
  ⟨(c6_creation_model_rule initialState "GAMESERVER update 2 7 1 2 9 3 4" "2"
      ["7", "1", "2", "9", "3", "4"] 2 [(7, 1, 2), (9, 3, 4)] 9
      (by decide) (by decide) (by decide) rfl (by decide)).1,
   (c6_creation_model_rule initialState "GAMESERVER update 2 7 1 2 9 3 4" "2"
      ["7", "1", "2", "9", "3", "4"] 2 [(7, 1, 2), (9, 3, 4)] 9
      (by decide) (by decide) (by decide) rfl (by decide)).2.1,
   (c6_creation_model_rule initialState "GAMESERVER update 2 7 1 2 9 3 4" "2"
      ["7", "1", "2", "9", "3", "4"] 2 [(7, 1, 2), (9, 3, 4)] 9
      (by decide) (by decide) (by decide) rfl (by decide)).2.2.2⟩

/-- C7: an id already present in the Entity Set keeps its map entry and gets
only its x and z position fields overwritten (with the last listed values);
the model binding and y coordinate are untouched and no attach or remove is
recorded for it. -/
theorem c7_existing_entity_updated_in_place (st : GameState) (msg cstr : String)
    (fields : List String) (n : Nat) (ts : List (Nat × Int × Int)) (k : Nat) (o : Object)
    (htok : tokenize msg = "GAMESERVER" :: "update" :: cstr :: fields)
    (hn : parseUsize cstr = some n)
    (hts : parseTriples ("update" :: cstr :: fields) 0 n = some ts)
    (hpresent : alGet st.objectsFromServer k = some o)
    (hmem : k ∈ ts.map (fun t => t.1)) :
    processMessage st msg = some (applyUpdate st ts) ∧
    (∃ x z, lastPos ts k = some (x, z) ∧
        alGet (applyUpdate st ts).objectsFromServer k = some (setPosXZ o x z)) ∧
    (∀ x z, (setPosXZ o x z).model = o.model ∧ (setPosXZ o x z).posY = o.posY) ∧
    (applyUpdate st ts).attachEvents =
      st.attachEvents ++ newIds st.objectsFromServer (ts.map (fun t => t.1)) ∧
    k ∉ newIds st.objectsFromServer (ts.map (fun t => t.1)) ∧
    (applyUpdate st ts).removeEvents =
      st.removeEvents ++
        evictedIds (ts.map (fun t => t.1)) (applyTriples st ts).objectsFromServer ∧
    k ∉ evictedIds (ts.map (fun t => t.1)) (applyTriples st ts).objectsFromServer := by
  refine ⟨?_, ?_, fun x z => ⟨rfl, rfl⟩, applyUpdate_attachEvents st ts,
    not_mem_newIds_of_isKey _ _ k (by simp [isKey, hpresent]),
    applyUpdate_removeEvents st ts,
    not_mem_evictedIds _ _ k hmem⟩
  · rw [processMessage, htok]
    exact processTokens_update_eq st cstr fields n ts hn hts
  · obtain ⟨x, z, hlp⟩ := lastPos_of_mem ts k hmem
    have hcontains : (ts.map (fun t => t.1)).contains k = true := by simpa using hmem
    refine ⟨x, z, hlp, ?_⟩
    rw [alGet_applyUpdate, if_pos hcontains]
    exact alGet_applyTriples_present ts st k x z o hlp hpresent

/-- C7 witness: id 7, already present after the first snapshot, is moved in
place by `GAMESERVER update 2 7 8 9 9 3 4`, keeping its model and y. -/
theorem c7_existing_entity_updated_in_place_witness :
    processMessage (applyUpdate initialState [(7, 1, 2), (9, 3, 4)])
        "GAMESERVER update 2 7 8 9 9 3 4" =
      some (applyUpdate (applyUpdate initialState [(7, 1, 2), (9, 3, 4)])
        [(7, 8, 9), (9, 3, 4)]) ∧
    7 ∉ newIds (applyUpdate initialState [(7, 1, 2), (9, 3, 4)]).objectsFromServer
        (([(7, 8, 9), (9, 3, 4)] : List (Nat × Int × Int)).map (fun t => t.1)) :=
  ⟨(c7_existing_entity_updated_in_place
      (applyUpdate initialState [(7, 1, 2), (9, 3, 4)])
      "GAMESERVER update 2 7 8 9 9 3 4" "2" ["7", "8", "9", "9", "3", "4"] 2
      [(7, 8, 9), (9, 3, 4)] 7 { posX := 1, posY := 0, posZ := 2, model := some 3 }
      (by decide) (by decide) (by decide) (by decide) (by decide)).1,
   (c7_existing_entity_updated_in_place
      (applyUpdate initialState [(7, 1, 2), (9, 3, 4)])
      "GAMESERVER update 2 7 8 9 9 3 4" "2" ["7", "8", "9", "9", "3", "4"] 2
      [(7, 8, 9), (9, 3, 4)] 7 { posX := 1, posY := 0, posZ := 2, model := some 3 }
      (by decide) (by decide) (by decide) (by decide) (by decide)).2.2.2.2.1⟩

/-- C8: triples are applied in listed order, so a duplicated id simply ends at
the position of its last listed triple, the entity is created at most once,
and no error occurs. -/
theorem c8_duplicate_ids_last_wins (st : GameState) (msg cstr : String)
    (fields : List String) (n : Nat) (ts : List (Nat × Int × Int)) (k : Nat)
    (htok : tokenize msg = "GAMESERVER" :: "update" :: cstr :: fields)
    (hn : parseUsize cstr = some n)
    (hts : parseTriples ("update" :: cstr :: fields) 0 n = some ts)
    (hmem : k ∈ ts.map (fun t => t.1)) :
    processMessage st msg = some (applyUpdate st ts) ∧
    (∃ x z, lastPos ts k = some (x, z) ∧
        ∃ o, alGet (applyUpdate st ts).objectsFromServer k = some o ∧
          o.posX = x ∧ o.posZ = z) ∧
    (newIds st.objectsFromServer (ts.map (fun t => t.1))).count k ≤ 1 := by
  refine ⟨?_, ?_, count_newIds_le_one _ _ k⟩
  · rw [processMessage, htok]
    exact processTokens_update_eq st cstr fields n ts hn hts
  · obtain ⟨x, z, hlp⟩ := lastPos_of_mem ts k hmem
    have hcontains : (ts.map (fun t => t.1)).contains k = true := by simpa using hmem
    refine ⟨x, z, hlp, ?_⟩
    cases hbase : alGet st.objectsFromServer k with
    | some o0 =>
      rw [alGet_applyUpdate, if_pos hcontains,
        alGet_applyTriples_present ts st k x z o0 hlp hbase]
      exact ⟨_, rfl, rfl, rfl⟩
    | none =>
      rw [alGet_applyUpdate, if_pos hcontains,
        alGet_applyTriples_absent ts st k x z hlp hbase]
      exact ⟨_, rfl, rfl, rfl⟩

/-- C8 witness: in `GAMESERVER update 2 5 1 2 5 9 9` the id 5 appears twice;
the last listed triple wins and the entity is created once. -/
theorem c8_duplicate_ids_last_wins_witness :
    processMessage initialState "GAMESERVER update 2 5 1 2 5 9 9" =
      some (applyUpdate initialState [(5, 1, 2), (5, 9, 9)]) ∧
    (newIds initialState.objectsFromServer
        (([(5, 1, 2), (5, 9, 9)] : List (Nat × Int × Int)).map (fun t => t.1))).count 5 ≤ 1 :=
  ⟨(c8_duplicate_ids_last_wins initialState "GAMESERVER update 2 5 1 2 5 9 9" "2"
      ["5", "1", "2", "5", "9", "9"] 2 [(5, 1, 2), (5, 9, 9)] 5
      (by decide) (by decide) (by decide) (by decide)).1,
   (c8_duplicate_ids_last_wins initialState "GAMESERVER update 2 5 1 2 5 9 9" "2"
      ["5", "1", "2", "5", "9", "9"] 2 [(5, 1, 2), (5, 9, 9)] 5
      (by decide) (by decide) (by decide) (by decide)).2.2⟩

/-- C10: an entity's model variant is fixed at creation from the player id
known at that moment — an `init` only rewrites `player_id` and never touches
existing entities or their model bindings, and an entity whose id equals the
initial unassigned player id 0, created before any `init`, receives the
player variant `models[2]`. -/
theorem c10_model_fixed_at_creation :
    (∀ (st : GameState) (a : String) (more : List String) (pid : Nat),
        parseU32 a = some pid →
          processTokens st ("GAMESERVER" :: "init" :: a :: more) =
            some { st with playerId := pid }) ∧
    (∀ (st : GameState) (msg cstr : String) (fields : List String) (n : Nat)
        (ts : List (Nat × Int × Int)),
        st.playerId = 0 →
        alGet st.objectsFromServer 0 = none →
        tokenize msg = "GAMESERVER" :: "update" :: cstr :: fields →
        parseUsize cstr = some n →
        parseTriples ("update" :: cstr :: fields) 0 n = some ts →
        (0 : Nat) ∈ ts.map (fun t => t.1) →
        processMessage st msg = some (applyUpdate st ts) ∧
          ∃ o, alGet (applyUpdate st ts).objectsFromServer 0 = some o ∧
            o.model = some 2) := by
  constructor
  · intro st a more pid hp
    exact processTokens_init_some st a more pid hp
  · intro st msg cstr fields n ts hpid habsent htok hn hts hmem
    refine ⟨?_, ?_⟩
    · rw [processMessage, htok]
      exact processTokens_update_eq st cstr fields n ts hn hts
    · obtain ⟨x, z, hlp⟩ := lastPos_of_mem ts 0 hmem
      have hcontains : (ts.map (fun t => t.1)).contains 0 = true := by simpa using hmem
      rw [alGet_applyUpdate, if_pos hcontains,
        alGet_applyTriples_absent ts st 0 x z hlp habsent]
      refine ⟨_, rfl, ?_⟩
      simp [setPosXZ, setModel, hpid]

/-- C10 witness: a later `init 9` only rewrites the player id, and id 0
created while the player id was still the unassigned 0 carries
the player variant `models[2]`. -/
theorem c10_model_fixed_at_creation_witness :
    processTokens initialState ["GAMESERVER", "init", "9"] =
      some { initialState with playerId := 9 } ∧
    (processMessage initialState "GAMESERVER update 1 0 5 6" =
        some (applyUpdate initialState [(0, 5, 6)]) ∧
      ∃ o, alGet (applyUpdate initialState [(0, 5, 6)]).objectsFromServer 0 = some o ∧
        o.model = some 2) :=
  ⟨c10_model_fixed_at_creation.1 initialState "9" [] 9 (by decide),
   c10_model_fixed_at_creation.2 initialState "GAMESERVER update 1 0 5 6" "1"
     ["0", "5", "6"] 1 [(0, 5, 6)] rfl rfl (by decide) (by decide) (by decide)
     (by decide)⟩

/-- C5: applying the same well-formed `update` command twice in a row leaves
the observable state after the second application — entity lookups, player
id, and the attach and remove call logs — identical to the state after the
first, so the second application performs no additional Model Registry
calls. -/
theorem c5_update_idempotent (st : GameState) (msg cstr : String)
    (fields : List String) (n : Nat) (ts : List (Nat × Int × Int))
    (htok : tokenize msg = "GAMESERVER" :: "update" :: cstr :: fields)
    (hn : parseUsize cstr = some n)
    (hts : parseTriples ("update" :: cstr :: fields) 0 n = some ts) :
    processMessage st msg = some (applyUpdate st ts) ∧
    processMessage (applyUpdate st ts) msg =
      some (applyUpdate (applyUpdate st ts) ts) ∧
    (∀ k, alGet (applyUpdate (applyUpdate st ts) ts).objectsFromServer k =
        alGet (applyUpdate st ts).objectsFromServer k) ∧
    (applyUpdate (applyUpdate st ts) ts).playerId = (applyUpdate st ts).playerId ∧
    (applyUpdate (applyUpdate st ts) ts).attachEvents =
      (applyUpdate st ts).attachEvents ∧
    (applyUpdate (applyUpdate st ts) ts).removeEvents =
      (applyUpdate st ts).removeEvents := by
  have hU : ∀ k, k ∈ ts.map (fun t => t.1) →
      ∃ b x z, lastPos ts k = some (x, z) ∧
        alGet (applyUpdate st ts).objectsFromServer k = some (setPosXZ b x z) := by
    intro k hmem
    obtain ⟨x, z, hlp⟩ := lastPos_of_mem ts k hmem
    have hcontains : (ts.map (fun t => t.1)).contains k = true := by simpa using hmem
    cases hbase : alGet st.objectsFromServer k with
    | some o0 =>
      refine ⟨o0, x, z, hlp, ?_⟩
      rw [alGet_applyUpdate, if_pos hcontains]
      exact alGet_applyTriples_present ts st k x z o0 hlp hbase
    | none =>
      refine ⟨setModel Object.new (if k = st.playerId then 2 else 3), x, z, hlp, ?_⟩
      rw [alGet_applyUpdate, if_pos hcontains]
      exact alGet_applyTriples_absent ts st k x z hlp hbase
  have hKeyU : ∀ id ∈ ts.map (fun t => t.1),
      isKey (applyUpdate st ts).objectsFromServer id = true := by
    intro id hid
    obtain ⟨b, x, z, _, hUo⟩ := hU id hid
    simp [isKey, hUo]
  refine ⟨?_, ?_, ?_, applyUpdate_playerId _ ts, ?_, ?_⟩
  · rw [processMessage, htok]
    exact processTokens_update_eq st cstr fields n ts hn hts
  · rw [processMessage, htok]
    exact processTokens_update_eq (applyUpdate st ts) cstr fields n ts hn hts
  · intro k
    by_cases hmem : k ∈ ts.map (fun t => t.1)
    · obtain ⟨b, x, z, hlp, hUo⟩ := hU k hmem
      have hcontains : (ts.map (fun t => t.1)).contains k = true := by simpa using hmem
      rw [alGet_applyUpdate (applyUpdate st ts) ts k, if_pos hcontains,
        alGet_applyTriples_present ts (applyUpdate st ts) k x z (setPosXZ b x z) hlp hUo,
        setPosXZ_setPosXZ, hUo]
    · have hcn : ¬ (ts.map (fun t => t.1)).contains k = true := by simpa using hmem
      rw [alGet_applyUpdate (applyUpdate st ts) ts k, if_neg hcn,
        alGet_applyUpdate st ts k, if_neg hcn]
  · rw [applyUpdate_attachEvents,
      newIds_eq_nil_of_all_keys _ _ hKeyU, List.append_nil]
  · rw [applyUpdate_removeEvents]
    have hEnt : ∀ p ∈ (applyTriples (applyUpdate st ts) ts).objectsFromServer,
        p.1 ∈ ts.map (fun t => t.1) := by
      intro p hp
      have hk := mem_key_isKey _ p hp
      rcases (isKey_applyTriples ts (applyUpdate st ts) p.1).mp hk with h | h
      · exact isKey_applyUpdate_mem st ts p.1 h
      · exact h
    have hev : evictedIds (ts.map (fun t => t.1))
        (applyTriples (applyUpdate st ts) ts).objectsFromServer = [] := by
      unfold evictedIds
      rw [List.map_eq_nil_iff]
      rw [List.filter_eq_nil_iff]
      intro p hp
      simp [hEnt p hp]
    rw [hev, List.append_nil]

/-- C5 witness: processing `GAMESERVER update 2 7 1 2 9 3 4` twice from the
fresh state records no Model Registry calls during the second pass. -/
theorem c5_update_idempotent_witness :
    processMessage initialState "GAMESERVER update 2 7 1 2 9 3 4" =
      some (applyUpdate initialState [(7, 1, 2), (9, 3, 4)]) ∧
    processMessage (applyUpdate initialState [(7, 1, 2), (9, 3, 4)])
        "GAMESERVER update 2 7 1 2 9 3 4" =
      some (applyUpdate (applyUpdate initialState [(7, 1, 2), (9, 3, 4)])
        [(7, 1, 2), (9, 3, 4)]) ∧
    (applyUpdate (applyUpdate initialState [(7, 1, 2), (9, 3, 4)])
        [(7, 1, 2), (9, 3, 4)]).attachEvents =
      (applyUpdate initialState [(7, 1, 2), (9, 3, 4)]).attachEvents :=
  ⟨(c5_update_idempotent initialState "GAMESERVER update 2 7 1 2 9 3 4" "2"
      ["7", "1", "2", "9", "3", "4"] 2 [(7, 1, 2), (9, 3, 4)]
      (by decide) (by decide) (by decide)).1,
   (c5_update_idempotent initialState "GAMESERVER update 2 7 1 2 9 3 4" "2"
      ["7", "1", "2", "9", "3", "4"] 2 [(7, 1, 2), (9, 3, 4)]
      (by decide) (by decide) (by decide)).2.1,
   (c5_update_idempotent initialState "GAMESERVER update 2 7 1 2 9 3 4" "2"
      ["7", "1", "2", "9", "3", "4"] 2 [(7, 1, 2), (9, 3, 4)]
      (by decide) (by decide) (by decide)).2.2.2.2.1⟩
